import Mathlib

/-!
# Verification of the jsonlint declarative binding/validation core

Shallow embedding, in Lean 4, of the parts of `tangwz/jsonlint` that the
frozen claims are about:

* `jsonlint/jsons.py` — `JsonMeta.__call__` (field-table construction),
  `JsonMeta.__setattr__` / `__delattr__` (cache invalidation);
* `jsonlint/fields.py` — `Field.validate`, `Field._run_validation_chain`,
  `Field.process`, `StringField.process_jsondata`,
  `DateField.process_jsondata`, `DateTimeField.__call__`,
  `ObjectField.__init__` / `validate`, `ListField.process` /
  `_add_entry` / `append_entry` / `pop_entry`.

Python attribute dictionaries become association lists, the metaclass's
per-type caches become `Option` fields of an explicit state record,
exceptions used as control flow (`StopValidation`, `ValueError`,
`AssertionError`) become tagged outcome types or `Except`, and mutation
becomes explicit state passing.
-/

namespace Jsonlint

/-! ## Python attribute values, as seen by the metaclass scan

`JsonMeta.__call__` recognizes a field declaration structurally: the
attribute value `hasattr(value, '_jsonfield')`.  Such a value is an
`UnboundField`, whose `creation_counter` was assigned from a global
monotone counter at declaration time (`UnboundField.__init__`).  All
other attribute values are opaque here. -/

inductive PyAttr where
  /-- An `UnboundField` carrying its `creation_counter`. -/
  | field (counter : Nat)
  /-- Any attribute value without the `_jsonfield` marker. -/
  | other
deriving DecidableEq, Repr

/-- Does the attribute value carry the `_jsonfield` marker
(`hasattr(value, '_jsonfield')`)? -/
def PyAttr.isField : PyAttr → Bool
  | .field _ => true
  | .other => false

/-- A class `__dict__`: attribute names mapped to values. -/
abbrev AttrMap := List (String × PyAttr)

/-- `d[n]` lookup in a class dict (first binding wins, as names in a
Python dict are unique). -/
def lookupAttr : AttrMap → String → Option PyAttr
  | [], _ => none
  | (k, v) :: rest, n => if k = n then some v else lookupAttr rest n

/-- A Python class for attribute-lookup purposes: its method resolution
order, most-derived first, each entry being that class's own dict.
(`object`'s dunder attributes are irrelevant: the scan skips every name
starting with an underscore.) -/
structure PyClass where
  mro : List AttrMap
deriving Repr

/-- Attribute lookup along an MRO: the first class dict binding the
name provides the value. -/
def getattrAux : List AttrMap → String → Option PyAttr
  | [], _ => none
  | d :: rest, n =>
    match lookupAttr d n with
    | some v => some v
    | none => getattrAux rest n

/-- `getattr(cls, n)`: the first class along the MRO whose dict binds
`n` provides the value (`UnboundField` defines no descriptor protocol,
so class attribute lookup returns the stored object itself). -/
def getattrCls (cls : PyClass) (n : String) : Option PyAttr :=
  getattrAux cls.mro n

/-- `name.startswith('_')`. -/
def startsUnderscore (n : String) : Bool := n.data.head? = some '_'

/-- Python string comparison `a <= b`: lexicographic on code points. -/
def nameLeChars : List Char → List Char → Bool
  | [], _ => true
  | _ :: _, [] => false
  | a :: as, b :: bs =>
    if a.toNat < b.toNat then true
    else if a.toNat = b.toNat then nameLeChars as bs
    else false

/-- Python string comparison on `String`s. -/
def nameLe (a b : String) : Bool := nameLeChars a.data b.data

theorem nameLeChars_total : ∀ as bs, nameLeChars as bs = true ∨ nameLeChars bs as = true
  | [], _ => Or.inl rfl
  | _ :: _, [] => Or.inr rfl
  | a :: as, b :: bs => by
    rcases Nat.lt_trichotomy a.toNat b.toNat with h | h | h
    · exact Or.inl (by simp [nameLeChars, h])
    · rcases nameLeChars_total as bs with ih | ih
      · exact Or.inl (by simp [nameLeChars, h, ih])
      · exact Or.inr (by simp [nameLeChars, h.symm, ih])
    · exact Or.inr (by simp [nameLeChars, h])

theorem nameLeChars_trans : ∀ as bs cs, nameLeChars as bs = true →
    nameLeChars bs cs = true → nameLeChars as cs = true
  | [], _, _ => fun _ _ => rfl
  | a :: as, [], _ => fun h _ => by simp [nameLeChars] at h
  | _ :: _, _ :: _, [] => fun _ h => by simp [nameLeChars] at h
  | a :: as, b :: bs, c :: cs => by
    intro h1 h2
    simp only [nameLeChars] at h1 h2 ⊢
    by_cases hab : a.toNat < b.toNat <;> by_cases hbc : b.toNat < c.toNat <;>
      simp [hab, hbc] at h1 h2 ⊢
    · omega
    · obtain ⟨hbc', _⟩ := h2
      have : a.toNat < c.toNat := by omega
      simp [this]
    · obtain ⟨hab', _⟩ := h1
      have : a.toNat < c.toNat := by omega
      simp [this]
    · obtain ⟨hab', h1'⟩ := h1
      obtain ⟨hbc', h2'⟩ := h2
      have hac : a.toNat = c.toNat := by omega
      simp [hac, Nat.lt_irrefl, nameLeChars_trans as bs cs h1' h2']

/-- All attribute names declared anywhere along the MRO, with
duplicates. -/
def allAttrNames (cls : PyClass) : List String :=
  cls.mro.foldr (fun d acc => d.map Prod.fst ++ acc) []

/-- `dir(cls)`: the set of names visible on the class or its ancestors,
each once, in sorted order. -/
def dirCls (cls : PyClass) : List String :=
  List.insertionSort (nameLe · ·) (allAttrNames cls).dedup

/-- The body of the scan loop in `JsonMeta.__call__` for one name: a
visible public name whose value has the `_jsonfield` marker yields the
pair `(name, creation_counter)`. -/
def fieldCandidate (cls : PyClass) (n : String) : Option (String × Nat) :=
  if startsUnderscore n then none
  else
    match getattrCls cls n with
    | some (.field c) => some (n, c)
    | _ => none

/-- The scan loop of `JsonMeta.__call__` over `dir(cls)`. -/
def fieldCandidates (cls : PyClass) : List (String × Nat) :=
  (dirCls cls).filterMap (fieldCandidate cls)

/-- The sort key order of `fields.sort(key=lambda x: (x[1].creation_counter, x[0]))`:
compare `(creation_counter, name)` lexicographically. -/
def tblLe (a b : String × Nat) : Prop :=
  a.2 < b.2 ∨ (a.2 = b.2 ∧ nameLe a.1 b.1 = true)

instance : DecidableRel tblLe := fun a b => by
  unfold tblLe; infer_instance

instance : IsTrans (String × Nat) tblLe where
  trans a b c hab hbc := by
    rcases hab with h1 | ⟨h1, h1'⟩ <;> rcases hbc with h2 | ⟨h2, h2'⟩
    · exact Or.inl (lt_trans h1 h2)
    · exact Or.inl (h2 ▸ h1)
    · exact Or.inl (h1 ▸ h2)
    · exact Or.inr ⟨h1.trans h2, nameLeChars_trans _ _ _ h1' h2'⟩

instance : IsTotal (String × Nat) tblLe where
  total a b := by
    rcases lt_trichotomy a.2 b.2 with h | h | h
    · exact Or.inl (Or.inl h)
    · rcases nameLeChars_total a.1.data b.1.data with h' | h'
      · exact Or.inl (Or.inr ⟨h, h'⟩)
      · exact Or.inr (Or.inr ⟨h.symm, h'⟩)
    · exact Or.inr (Or.inl h)

/-- `JsonMeta.__call__`'s field-table construction (the branch taken
when `cls._unbound_fields is None`): scan `dir(cls)` for public
field-marked attributes and sort by `(creation_counter, name)`. -/
def buildFieldTable (cls : PyClass) : List (String × Nat) :=
  List.insertionSort tblLe (fieldCandidates cls)

/-! ## `JsonMeta` cache state (`jsons.py` lines 93–128)

`JsonMeta.__init__` gives every class object two cache slots,
`_unbound_fields` and `_json_meta`, both initialized to `None`.
`__call__` rebuilds a `None` cache before constructing the instance;
`__setattr__` / `__delattr__` selectively reset the caches.  Mutation of
a class object becomes explicit state passing on `MetaState`. -/

structure MetaState where
  /-- The class's own `__dict__` entries (the declarations the scan can
  see on this class itself). -/
  attrs : AttrMap
  /-- The `_unbound_fields` cache; `none` models Python `None`
  ("unbuilt"). -/
  unboundFields : Option (List (String × Nat))
  /-- The `_json_meta` cache; its value is irrelevant to the claims. -/
  jsonMeta : Option Unit
deriving Repr, DecidableEq

/-- Overwrite or insert a binding in a class dict (Python dict update
keeps the original insertion position on overwrite). -/
def setAttrMap : AttrMap → String → PyAttr → AttrMap
  | [], n, v => [(n, v)]
  | (k, w) :: rest, n, v =>
    if k = n then (k, v) :: rest else (k, w) :: setAttrMap rest n v

/-- Remove a binding from a class dict. -/
def delAttrMap : AttrMap → String → AttrMap
  | [], _ => []
  | (k, w) :: rest, n => if k = n then rest else (k, w) :: delAttrMap rest n

/-- `JsonMeta.__setattr__`: resetting `_json_meta` when `Meta` is
assigned, resetting `_unbound_fields` when a public name is assigned a
`_jsonfield`-marked value, then performing the plain attribute write. -/
def metaSetattr (s : MetaState) (n : String) (v : PyAttr) : MetaState :=
  if n = "Meta" then
    { s with attrs := setAttrMap s.attrs n v, jsonMeta := none }
  else if !startsUnderscore n && v.isField then
    { s with attrs := setAttrMap s.attrs n v, unboundFields := none }
  else
    { s with attrs := setAttrMap s.attrs n v }

/-- `JsonMeta.__delattr__`: any public-name deletion resets
`_unbound_fields`, then the plain attribute delete runs. -/
def metaDelattr (s : MetaState) (n : String) : MetaState :=
  if !startsUnderscore n then
    { s with attrs := delAttrMap s.attrs n, unboundFields := none }
  else
    { s with attrs := delAttrMap s.attrs n }

/-- The `_unbound_fields` step of `JsonMeta.__call__`: rebuild the
field table if and only if the cache is `None`.  `cls` is the full MRO
view of the class whose state is `s`. -/
def metaCall (s : MetaState) (cls : PyClass) : MetaState :=
  match s.unboundFields with
  | none => { s with unboundFields := some (buildFieldTable cls) }
  | some _ => s

/-- A two-level class hierarchy: a base class and a derived class, each
with its own `MetaState` (each class object carries its own
`_unbound_fields` slot). -/
structure Hier where
  base : MetaState
  derived : MetaState
deriving Repr, DecidableEq

/-- The MRO view of the base class. -/
def basePyClass (h : Hier) : PyClass := ⟨[h.base.attrs]⟩

/-- The MRO view of the derived class. -/
def derivedPyClass (h : Hier) : PyClass := ⟨[h.derived.attrs, h.base.attrs]⟩

/-- Attribute assignment on the base class (the derived class object is
untouched: `cls._unbound_fields = None` writes only on `cls`). -/
def hierSetattrBase (h : Hier) (n : String) (v : PyAttr) : Hier :=
  { h with base := metaSetattr h.base n v }

/-- Instance construction of the derived class (its `__call__` cache
step). -/
def hierCallDerived (h : Hier) : Hier :=
  { h with derived := metaCall h.derived (derivedPyClass h) }

/-! ## Validator outcomes and the validation chain (`fields.py` 125–182)

A validator callable is invoked as `validator(data, field)` and either
returns normally, raises `ValueError(message)` (soft failure), or
raises `StopValidation(...)` (hard stop, with an optional message
argument).  The same three-way contract applies to the `pre_validate`
hook.  A shallow embedding replaces each callable by the outcome it
produces on the `(data, field)` pair at hand. -/

inductive VOutcome where
  /-- The callable returned normally. -/
  | ok
  /-- The callable raised `ValueError(msg)`. -/
  | valueError (msg : String)
  /-- The callable raised `StopValidation`, with `none` standing for an
  empty argument tuple. -/
  | stopValidation (msg : Option String)
deriving DecidableEq, Repr

/-- The message appended by the `except StopValidation` handlers:
`if e.args and e.args[0]: self.errors.append(e.args[0])` — appended only
when an argument is present and truthy (a non-empty string). -/
def stopMessageList : Option String → List String
  | some msg => if msg ≠ "" then [msg] else []
  | none => []

/-- `Field._run_validation_chain(self, data, validators)`, with the
mutable `self.errors` passed in and returned: invoke each validator in
order; `ValueError` appends its message and continues; `StopValidation`
appends its truthy message (if any) and returns `True` immediately;
exhausting the sequence returns `False`. -/
def runValidationChain (errors : List String) : List VOutcome → List String × Bool
  | [] => (errors, false)
  | .ok :: rest => runValidationChain errors rest
  | .valueError m :: rest => runValidationChain (errors ++ [m]) rest
  | .stopValidation m :: _ => (errors ++ stopMessageList m, true)

/-- `Field.validate(self, data, extra_validators)`: reset `self.errors`
to a copy of `self.process_errors`; run `pre_validate` (a
`StopValidation` appends its truthy message and skips the chain, a
`ValueError` appends its message and the chain still runs); if not
stopped, run the declared validators chained with the extra validators;
then always call `post_validate(data, stop_validation)` — whose
`ValueError` appends one more message and whose `StopValidation` is not
caught and escapes as a fault — and return `len(self.errors) == 0`
together with the final error list. -/
def fieldValidate (processErrors : List String) (pre : VOutcome)
    (validators extraValidators : List VOutcome)
    (post : Bool → VOutcome) : Except (Option String) (List String × Bool) :=
  let errors0 := processErrors
  let step1 : List String × Bool :=
    match pre with
    | .ok => (errors0, false)
    | .valueError m => (errors0 ++ [m], false)
    | .stopValidation m => (errors0 ++ stopMessageList m, true)
  let step2 : List String × Bool :=
    if step1.2 then (step1.1, true)
    else runValidationChain step1.1 (validators ++ extraValidators)
  match post step2.2 with
  | .ok => .ok (step2.1, step2.1.isEmpty)
  | .valueError m => .ok (step2.1 ++ [m], (step2.1 ++ [m]).isEmpty)
  | .stopValidation m => .error m

/-! ## Python values and the scalar `Field.process` (`fields.py` 204–243) -/

/-- The Python values the processing claims range over. -/
inductive PyVal where
  /-- `None`. -/
  | none
  | bool (b : Bool)
  | int (n : Int)
  | str (s : String)
  | list (xs : List PyVal)
  /-- A `datetime.date(year, month, day)` value. -/
  | date (year month day : Nat)
deriving Repr

/-- Python truthiness (`bool(v)`) of the modeled values. -/
def PyVal.truthy : PyVal → Bool
  | .none => false
  | .bool b => b
  | .int n => n != 0
  | .str s => s != ""
  | .list xs => !xs.isEmpty
  | .date _ _ _ => true

/-- Is the value a Python string (`isinstance(value, string_types)`)? -/
def PyVal.isStr : PyVal → Bool
  | .str _ => true
  | _ => false

/-- The external input mapping (`jsondata`): field names to raw
values. -/
abbrev JsonData := List (String × PyVal)

/-- `jsondata.get(name)` / `name in jsondata`. -/
def lookupVal : JsonData → String → Option PyVal
  | [], _ => none
  | (k, v) :: rest, n => if k = n then some v else lookupVal rest n

/-- The outcome of a kind-specific `process_jsondata(self, value)` call:
it may assign `self.data` and return, assign `self.data` and then raise
`ValueError(msg)` (the assignment persists), or raise some other
exception (`TypeError` from `int()` on a list, `strptime` on a
non-string, ...) that no caller catches. -/
inductive AdoptOut where
  | ok (newData : PyVal)
  | valueError (newData : PyVal) (msg : String)
  | fault
deriving Repr

/-- A kind-specific "adopt external value" step: raw value and current
`self.data` in, outcome out. -/
abbrev Adopter := PyVal → PyVal → AdoptOut

/-- Exceptions escaping from `Field.process` itself. -/
inductive PyExc where
  /-- An uncaught `ValueError(msg)`. -/
  | valueErr (msg : String)
  /-- Any other uncaught exception. -/
  | otherExc
deriving DecidableEq, Repr

/-- The observable state of a field after `process`. -/
structure ProcState where
  data : PyVal
  /-- `self.raw_data`; `none` is the class-level initial `None`. -/
  rawData : Option PyVal
  processErrors : List String
deriving Repr

/-- The filter loop at the end of `Field.process`: each filter maps
`self.data`; the first `ValueError` appends its message to
`self.process_errors` and skips the remaining filters, leaving `data`
at the last successfully assigned value. -/
def runFilters (d : PyVal) (pe : List String) :
    List (PyVal → Except String PyVal) → PyVal × List String
  | [] => (d, pe)
  | f :: fs =>
    match f d with
    | .ok d' => runFilters d' pe fs
    | .error m => (d, pe ++ [m])

/-- `Field.process(self, jsondata, data=unset_value)` for a scalar
field, after the `data` argument has been resolved against the default
(`dataResolved` is the value handed to `process_data`, which for the
base class assigns it to `self.data` unchanged):

* `jsondata is None`: only the filters run;
* the name is present: `self.raw_data` is set to the entry and
  `process_jsondata` runs under `except ValueError`, which captures the
  message into `self.process_errors`;
* the name is absent: `self.raw_data = []` and, only when the current
  `self.data` is falsy, `process_jsondata([])` runs — outside any
  `try`, so a `ValueError` raised there escapes `process` entirely. -/
def fieldProcess (name : String) (jsondata : Option JsonData)
    (dataResolved : PyVal) (adopt : Adopter)
    (filters : List (PyVal → Except String PyVal)) : Except PyExc ProcState :=
  let data0 := dataResolved
  match jsondata with
  | none =>
    let (d, pe) := runFilters data0 [] filters
    .ok ⟨d, Option.none, pe⟩
  | some m =>
    match lookupVal m name with
    | some v =>
      match adopt v data0 with
      | .ok d1 =>
        let (d, pe) := runFilters d1 [] filters
        .ok ⟨d, some v, pe⟩
      | .valueError d1 msg =>
        let (d, pe) := runFilters d1 [msg] filters
        .ok ⟨d, some v, pe⟩
      | .fault => .error .otherExc
    | Option.none =>
      if !data0.truthy then
        match adopt (.list []) data0 with
        | .ok d1 =>
          let (d, pe) := runFilters d1 [] filters
          .ok ⟨d, some (.list []), pe⟩
        | .valueError _ msg => .error (.valueErr msg)
        | .fault => .error .otherExc
      else
        let (d, pe) := runFilters data0 [] filters
        .ok ⟨d, some (.list []), pe⟩

/-- `StringField.process_jsondata`: a string value is adopted as-is,
anything else silently becomes `''`; no exception is ever raised. -/
def stringAdopt : Adopter := fun v _cur =>
  match v with
  | .str s => .ok (.str s)
  | _ => .ok (.str "")

/-! ## `DateField` and the `%Y-%m-%d` format (`fields.py` 388–425)

`DateField.process_jsondata` delegates string parsing to the external
collaborator `datetime.datetime.strptime(value, '%Y-%m-%d')` and keeps
`.date()`.  The parser and the `strftime` renderer are modeled from
CPython's documented behavior for this one fixed format: `%Y` matches
exactly four digits, `%m` and `%d` one or two digits, the separators
must match literally, the whole string must be consumed, and the
resulting calendar date must exist (month 1–12, day within the month,
year at least 1); any violation raises `ValueError`. -/

/-- Split a character list on `'-'`. -/
def splitDashAux : List Char → List Char → List (List Char)
  | [], acc => [acc.reverse]
  | c :: rest, acc =>
    if c = '-' then acc.reverse :: splitDashAux rest []
    else splitDashAux rest (c :: acc)

def allDigits (cs : List Char) : Bool :=
  cs.all fun c => 48 ≤ c.toNat && c.toNat ≤ 57

def digitsVal (cs : List Char) : Nat :=
  cs.foldl (fun acc c => acc * 10 + (c.toNat - 48)) 0

def isLeapYear (y : Nat) : Bool :=
  y % 4 = 0 && (y % 100 ≠ 0 || y % 400 = 0)

def daysInMonth (y m : Nat) : Nat :=
  if m = 2 then (if isLeapYear y then 29 else 28)
  else if m = 4 ∨ m = 6 ∨ m = 9 ∨ m = 11 then 30
  else 31

/-- Model of `datetime.datetime.strptime(s, '%Y-%m-%d').date()`,
returning `none` where CPython raises `ValueError`. -/
def parseDateYmd (s : String) : Option (Nat × Nat × Nat) :=
  match splitDashAux s.data [] with
  | [ys, ms, ds] =>
    if allDigits ys && allDigits ms && allDigits ds
        && ys.length = 4
        && (ms.length = 1 || ms.length = 2)
        && (ds.length = 1 || ds.length = 2) then
      let y := digitsVal ys
      let m := digitsVal ms
      let d := digitsVal ds
      if 1 ≤ y && 1 ≤ m && m ≤ 12 && 1 ≤ d && d ≤ daysInMonth y m then
        some (y, m, d)
      else none
    else none
  | _ => none

/-- Two-digit zero-padded decimal rendering. -/
def pad2 (n : Nat) : List Char :=
  [Char.ofNat (48 + n / 10 % 10), Char.ofNat (48 + n % 10)]

/-- Four-digit zero-padded decimal rendering. -/
def pad4 (n : Nat) : List Char :=
  [Char.ofNat (48 + n / 1000 % 10), Char.ofNat (48 + n / 100 % 10),
   Char.ofNat (48 + n / 10 % 10), Char.ofNat (48 + n % 10)]

/-- Model of `date(y, m, d).strftime('%Y-%m-%d')` for in-range dates. -/
def formatDateYmd (y m d : Nat) : String :=
  ⟨pad4 y ++ '-' :: pad2 m ++ '-' :: pad2 d⟩

/-- `DateField.process_jsondata`: a falsy value is ignored; a truthy
string is parsed, an unparsable one sets `self.data = None` and raises
`ValueError('Not a valid date value')`; `strptime` on a truthy
non-string raises `TypeError`, which nothing catches. -/
def dateAdopt : Adopter := fun v cur =>
  if !v.truthy then .ok cur
  else
    match v with
    | .str s =>
      match parseDateYmd s with
      | some (y, m, d) => .ok (.date y m d)
      | Option.none => .valueError .none "Not a valid date value"
    | _ => .fault

/-- `DateTimeField.__call__` as inherited by `DateField`:
`self.raw_data` if truthy, else `self.data and self.data.strftime(self.format) or ''`
(the date's rendering when `data` is a date, `''` when it is `None`). -/
def dateTimeFieldCall (rawData : Option PyVal) (data : Option (Nat × Nat × Nat)) : PyVal :=
  match rawData with
  | some r =>
    if r.truthy then r
    else
      match data with
      | some (y, m, d) => .str (formatDateYmd y m d)
      | Option.none => .str ""
  | none =>
    match data with
    | some (y, m, d) => .str (formatDateYmd y m d)
    | Option.none => .str ""

/-! ## `ListField` (`fields.py` 511–628)

An entry is the bound inner field; the claims observe only its `id` and
whether it was bound against provided object data or blank
(`unset_value`).  `self.entries` and `self.last_index` are the mutable
state; `AssertionError` from `_add_entry` and `IndexError` from
`list.pop()` are configuration faults that no caller catches, while the
`ValueError` of `process_jsondata` is caught by `process` into
`self.process_errors`.  A fault from `process` leaves the partially
mutated state behind, so the error channel carries that state. -/

structure LEntry where
  id : Int
  /-- The `data` argument the entry was bound with; `none` models
  `unset_value` (a blank entry falling back to the inner default). -/
  data : Option PyVal
deriving Repr

structure ListState where
  entries : List LEntry
  lastIndex : Int
  processErrors : List String
deriving Repr

inductive ListFault where
  /-- The `assert` in `_add_entry` failed: more than `max_entries`. -/
  | assertionError
  /-- `self.entries.pop()` on an empty list. -/
  | indexError
deriving DecidableEq, Repr

/-- The `assert not self.max_entries or len(self.entries) < self.max_entries`
guard: passes when `max_entries` is `None` or `0` (falsy), else
requires room. -/
def maxOk (maxEntries : Option Nat) (len : Nat) : Bool :=
  match maxEntries with
  | Option.none => true
  | some m => if m = 0 then true else len < m

/-- `ListField._add_entry(self, jsondata, data, index=None)` with
`index` left at `None`: check the cap, take `index = last_index + 1`,
store it as `last_index`, bind the inner field with `id = index` and
process it on `data`, append the entry. -/
def addEntry (maxEntries : Option Nat) (s : ListState) (d : Option PyVal) :
    Except ListFault (ListState × LEntry) :=
  if maxOk maxEntries s.entries.length then
    let index := s.lastIndex + 1
    let entry : LEntry := ⟨index, d⟩
    .ok ({ s with entries := s.entries ++ [entry], lastIndex := index }, entry)
  else .error .assertionError

/-- The `for d in value: self._add_entry(data=d)` loop (also the
`for obj_data in data:` loop of `process`, which adds one entry per
native value): an `AssertionError` aborts the loop, leaving the entries
added so far in place. -/
def addEntriesFromList (maxEntries : Option Nat) (s : ListState) :
    List PyVal → Except (ListFault × ListState) ListState
  | [] => .ok s
  | d :: rest =>
    match addEntry maxEntries s (some d) with
    | .ok (s', _) => addEntriesFromList maxEntries s' rest
    | .error f => .error (f, s)

/-- The trailing `while len(self.entries) < self.min_entries:
self._add_entry(jsondata)` loop, run as `k` blank additions (each
iteration grows `entries` by one, so `k = min_entries - len(entries)`
steps reach the loop's exit condition). -/
def padEntries (maxEntries : Option Nat) (s : ListState) :
    Nat → Except (ListFault × ListState) ListState
  | 0 => .ok s
  | k + 1 =>
    match addEntry maxEntries s Option.none with
    | .ok (s', _) => padEntries maxEntries s' k
    | .error f => .error (f, s)

/-- The `if data is unset_value or not data: data = self.default` step
(`dataGiven = none` models `unset_value`; an empty list is falsy). -/
def listResolveData (dataGiven : Option (List PyVal)) (defaultVal : List PyVal) : List PyVal :=
  match dataGiven with
  | some l => if l.isEmpty then defaultVal else l
  | Option.none => defaultVal

/-- The input branch of `ListField.process`: a truthy dict input takes
the `process_jsondata` path on the raw entry under the field's name
(non-list raw → `ValueError` caught into `process_errors`), anything
else binds one entry per resolved native value. -/
def listAfterInput (name : String) (maxEntries : Option Nat) (s0 : ListState)
    (jsondata : Option JsonData) (data : List PyVal) :
    Except (ListFault × ListState) ListState :=
  match jsondata with
  | some m =>
    if m.isEmpty then
      addEntriesFromList maxEntries s0 data
    else
      match lookupVal m name with
      | some (.list xs) => addEntriesFromList maxEntries s0 xs
      | _ => .ok { s0 with processErrors := ["Not a valid list value"] }
  | Option.none => addEntriesFromList maxEntries s0 data

/-- `ListField.process(self, jsondata, data=unset_value)`: clear
`process_errors` and `entries` (`last_index` is untouched), resolve the
native data, run the input branch, then pad with blank entries up to
`min_entries` (each loop iteration adds one entry, so
`min_entries - len(entries)` additions reach the loop exit). -/
def listFieldProcess (name : String) (minEntries : Nat) (maxEntries : Option Nat)
    (s : ListState) (jsondata : Option JsonData) (dataGiven : Option (List PyVal))
    (defaultVal : List PyVal) : Except (ListFault × ListState) ListState :=
  let s0 : ListState := { s with processErrors := [], entries := [] }
  match listAfterInput name maxEntries s0 jsondata (listResolveData dataGiven defaultVal) with
  | .ok s1 => padEntries maxEntries s1 (minEntries - s1.entries.length)
  | .error e => .error e

/-- `ListField.append_entry(self, data=unset_value)`. -/
def appendEntry (maxEntries : Option Nat) (s : ListState) (d : Option PyVal) :
    Except ListFault (ListState × LEntry) :=
  addEntry maxEntries s d

/-- `ListField.pop_entry(self)`: `self.entries.pop()` (an `IndexError`
on an empty list), then `self.last_index -= 1`. -/
def popEntry (s : ListState) : Except ListFault (ListState × LEntry) :=
  match s.entries.getLast? with
  | some e =>
    .ok ({ s with entries := s.entries.dropLast, lastIndex := s.lastIndex - 1 }, e)
  | Option.none => .error .indexError

/-! ## `ObjectField` (`fields.py` 445–508)

The nested container is external to the claims: only its `validate()`
result and its `errors` mapping are observed. -/

structure NestedJson where
  /-- What `self.json.validate()` returns. -/
  validateResult : Bool
  /-- `self.json.errors`: the nested container's error mapping. -/
  errors : List (String × List String)
deriving Repr

/-- `ObjectField.__init__`: after the base initializer stores `filters`
and `validators`, a truthy `filters` raises `TypeError`, then a truthy
`validators` raises `TypeError`. -/
def objectFieldInit (filters : List (PyVal → Except String PyVal))
    (validators : List VOutcome) (nested : NestedJson) : Except String NestedJson :=
  if !filters.isEmpty then
    .error "ObjectField cannot take filters, as the encapsulated data is not mutable."
  else if !validators.isEmpty then
    .error "ObjectField does not accept any validators. Instead, define them on the enclosed json."
  else .ok nested

/-- `ObjectField.validate`: truthy `extra_validators` raises
`TypeError`; otherwise the result is exactly `self.json.validate()`. -/
def objectFieldValidate (nested : NestedJson) (extraValidators : List VOutcome) :
    Except String Bool :=
  if !extraValidators.isEmpty then
    .error "ObjectField does not accept in-line validators, as it gets errors from the enclosed json."
  else .ok nested.validateResult

/-- The `errors` property of `ObjectField`: `return self.json.errors`. -/
def objectFieldErrors (nested : NestedJson) : List (String × List String) :=
  nested.errors

/-! ## Spec-side characterizations

The specification describes the validation chain declaratively: the
messages appended are the soft-failure messages of the validators up to
and including the first hard stop, and a hard stop occurs iff some
validator before the end of the chain signals one.  These functions
follow the spec's words; the claim theorems relate them to
`runValidationChain` and `fieldValidate`, which follow the source. -/

/-- The messages the spec says the chain appends: one per soft failure,
plus the (truthy) message of the first hard stop, nothing after it. -/
def chainMessages : List VOutcome → List String
  | [] => []
  | .ok :: rest => chainMessages rest
  | .valueError m :: rest => m :: chainMessages rest
  | .stopValidation m :: _ => stopMessageList m

/-- Does some validator in the sequence signal a hard stop? -/
def chainStops : List VOutcome → Bool
  | [] => false
  | .ok :: rest => chainStops rest
  | .valueError _ :: rest => chainStops rest
  | .stopValidation _ :: _ => true

/-- The messages the spec says `pre_validate` contributes. -/
def preMessages : VOutcome → List String
  | .ok => []
  | .valueError m => [m]
  | .stopValidation m => stopMessageList m

/-- Does `pre_validate` signal a hard stop? -/
def preStops : VOutcome → Bool
  | .stopValidation _ => true
  | _ => false

/-- The stop flag the spec says `post_validate` must observe: the chain
was short-circuited either by `pre_validate` or by some validator. -/
def validateStopped (pre : VOutcome) (validators extraValidators : List VOutcome) : Bool :=
  preStops pre || chainStops (validators ++ extraValidators)

/-- The error list the spec says `validate` accumulates before
`post_validate` runs: the process errors, then `pre_validate`'s
message, then — unless `pre_validate` hard-stopped — the chain's
messages over declared followed by extra validators. -/
def validateBaseErrors (processErrors : List String) (pre : VOutcome)
    (validators extraValidators : List VOutcome) : List String :=
  processErrors ++ preMessages pre ++
    (if preStops pre then [] else chainMessages (validators ++ extraValidators))

/-- The id/counter invariant of a list field: entry ids are exactly the
positions `0, 1, ...`, and `last_index` is the last assigned id (so
`-1` when empty). -/
def ListInv (s : ListState) : Prop :=
  s.entries.map LEntry.id = (List.range s.entries.length).map Int.ofNat ∧
  s.lastIndex = (s.entries.length : Int) - 1

/-! # Theorems -/

/-! ## The validation chain -/

theorem runValidationChain_eq (errs : List String) (vs : List VOutcome) :
    runValidationChain errs vs = (errs ++ chainMessages vs, chainStops vs) := by
  induction vs generalizing errs with
  | nil => simp [runValidationChain, chainMessages, chainStops]
  | cons v rest ih =>
    cases v with
    | ok => exact ih errs
    | valueError m =>
      simp [runValidationChain, chainMessages, chainStops, ih]
    | stopValidation m =>
      simp [runValidationChain, chainMessages, chainStops]

theorem chainMessages_append_stop {pre : List VOutcome} (h : chainStops pre = false)
    (m : Option String) (post : List VOutcome) :
    chainMessages (pre ++ .stopValidation m :: post) = chainMessages pre ++ stopMessageList m := by
  induction pre with
  | nil => simp [chainMessages]
  | cons v rest ih =>
    cases v with
    | ok => simpa [chainMessages, chainStops] using ih (by simpa [chainStops] using h)
    | valueError w =>
      simp [chainMessages, chainStops] at h ⊢
      exact ih h
    | stopValidation w => simp [chainStops] at h

theorem chainStops_append_stop {pre : List VOutcome}
    (m : Option String) (post : List VOutcome) :
    chainStops (pre ++ .stopValidation m :: post) = true := by
  induction pre with
  | nil => simp [chainStops]
  | cons v rest ih => cases v <;> simp [chainStops, ih]

theorem stopMessageList_length (m : Option String) : (stopMessageList m).length ≤ 1 := by
  cases m with
  | none => simp [stopMessageList]
  | some s =>
    by_cases h : s = "" <;> simp [stopMessageList, h]

/-- C3: the chain runs the validators in order; a success appends
nothing, a soft failure appends exactly one message and continues, a
hard stop appends its zero-or-one truthy message, skips every remaining
validator (the result does not depend on them), and makes the chain
return `true`; without a hard stop the chain returns `false`. -/
theorem claim_C3_validation_chain :
    (∀ errs vs, runValidationChain errs vs = (errs ++ chainMessages vs, chainStops vs))
    ∧ (∀ errs vs, runValidationChain errs (.ok :: vs) = runValidationChain errs vs)
    ∧ (∀ errs m vs,
        runValidationChain errs (.valueError m :: vs) = runValidationChain (errs ++ [m]) vs)
    ∧ (∀ m, (stopMessageList m).length ≤ 1)
    ∧ (∀ errs pre m post, chainStops pre = false →
        runValidationChain errs (pre ++ .stopValidation m :: post) =
          (errs ++ chainMessages pre ++ stopMessageList m, true))
    ∧ (∀ errs vs, chainStops vs = false →
        runValidationChain errs vs = (errs ++ chainMessages vs, false)) := by
  refine ⟨runValidationChain_eq, fun errs vs => rfl, fun errs m vs => rfl,
    stopMessageList_length, ?_, ?_⟩
  · intro errs pre m post h
    rw [runValidationChain_eq, chainMessages_append_stop h, chainStops_append_stop,
      List.append_assoc]
  · intro errs vs h
    rw [runValidationChain_eq, h]

theorem claim_C3_validation_chain_witness :
    chainStops [VOutcome.valueError "soft"] = false ∧
    runValidationChain ["pe"]
        ([VOutcome.valueError "soft"] ++ .stopValidation (some "stop") :: [.valueError "skipped"]) =
      (["pe"] ++ chainMessages [VOutcome.valueError "soft"] ++ stopMessageList (some "stop"), true) :=
  ⟨by decide,
   claim_C3_validation_chain.2.2.2.2.1 ["pe"] [VOutcome.valueError "soft"]
     (some "stop") [.valueError "skipped"] (by decide)⟩

/-! ## The field table (C1) -/

theorem lookupAttr_mem {d : AttrMap} {n : String} {v : PyAttr}
    (h : lookupAttr d n = some v) : n ∈ d.map Prod.fst := by
  induction d with
  | nil => cases h
  | cons kv rest ih =>
    obtain ⟨k, w⟩ := kv
    rw [lookupAttr] at h
    by_cases hk : k = n
    · subst hk; exact List.mem_cons_self k _
    · rw [if_neg hk] at h
      exact List.mem_cons_of_mem _ (ih h)

theorem getattrAux_mem : ∀ {mro : List AttrMap} {n : String} {v : PyAttr},
    getattrAux mro n = some v →
    n ∈ List.foldr (fun d acc => d.map Prod.fst ++ acc) [] mro := by
  intro mro
  induction mro with
  | nil => intro n v h; cases h
  | cons d rest ih =>
    intro n v h
    rw [getattrAux] at h
    cases hl : lookupAttr d n with
    | some w => exact List.mem_append.mpr (Or.inl (lookupAttr_mem hl))
    | none =>
      rw [hl] at h
      exact List.mem_append.mpr (Or.inr (ih h))

theorem mem_allAttrNames_of_getattr {cls : PyClass} {n : String} {v : PyAttr}
    (h : getattrCls cls n = some v) : n ∈ allAttrNames cls :=
  getattrAux_mem h

theorem mem_dirCls {cls : PyClass} {n : String} :
    n ∈ dirCls cls ↔ n ∈ allAttrNames cls := by
  unfold dirCls
  rw [List.mem_insertionSort, List.mem_dedup]

theorem fieldCandidate_fst {cls : PyClass} {n : String} {p : String × Nat}
    (h : fieldCandidate cls n = some p) : p.1 = n := by
  unfold fieldCandidate at h
  by_cases hu : startsUnderscore n
  · rw [if_pos hu] at h; cases h
  · rw [if_neg hu] at h
    rcases hga : getattrCls cls n with _ | v
    · rw [hga] at h; cases h
    · rw [hga] at h
      cases v with
      | field c => simp only [Option.some.injEq] at h; rw [← h]
      | other => cases h

theorem mem_fieldCandidates {cls : PyClass} {n : String} {c : Nat} :
    (n, c) ∈ fieldCandidates cls ↔
      (startsUnderscore n = false ∧ getattrCls cls n = some (.field c)) := by
  unfold fieldCandidates
  rw [List.mem_filterMap]
  constructor
  · rintro ⟨m, _hm, hg⟩
    have hm1 := fieldCandidate_fst hg
    unfold fieldCandidate at hg
    by_cases hu : startsUnderscore m
    · rw [if_pos hu] at hg; cases hg
    · rw [if_neg hu] at hg
      rcases hga : getattrCls cls m with _ | v
      · rw [hga] at hg; cases hg
      · rw [hga] at hg
        cases v with
        | other => cases hg
        | field c' =>
          simp only [Option.some.injEq, Prod.mk.injEq] at hg
          obtain ⟨rfl, rfl⟩ := hg
          exact ⟨by simpa using hu, hga⟩
  · rintro ⟨h1, h2⟩
    refine ⟨n, mem_dirCls.mpr (mem_allAttrNames_of_getattr h2), ?_⟩
    unfold fieldCandidate
    rw [if_neg (by simp [h1]), h2]

theorem mem_buildFieldTable {cls : PyClass} {n : String} {c : Nat} :
    (n, c) ∈ buildFieldTable cls ↔
      (startsUnderscore n = false ∧ getattrCls cls n = some (.field c)) := by
  unfold buildFieldTable
  rw [List.mem_insertionSort, mem_fieldCandidates]

theorem nodup_map_fst_filterMap {g : String → Option (String × Nat)}
    (hg : ∀ n p, g n = some p → p.1 = n) :
    ∀ {l : List String}, l.Nodup → ((l.filterMap g).map Prod.fst).Nodup := by
  intro l
  induction l with
  | nil => intro _; simp
  | cons a t ih =>
    intro hl
    rw [List.nodup_cons] at hl
    obtain ⟨ha, ht⟩ := hl
    cases hga : g a with
    | none => simpa only [List.filterMap_cons, hga] using ih ht
    | some p =>
      simp only [List.filterMap_cons, hga, List.map_cons]
      rw [List.nodup_cons]
      refine ⟨?_, ih ht⟩
      rw [hg a p hga]
      intro hmem
      rw [List.mem_map] at hmem
      obtain ⟨q, hq, hq1⟩ := hmem
      rw [List.mem_filterMap] at hq
      obtain ⟨b, hb, hgb⟩ := hq
      rw [hg b q hgb] at hq1
      exact ha (hq1 ▸ hb)

theorem nodup_buildFieldTable (cls : PyClass) :
    ((buildFieldTable cls).map Prod.fst).Nodup := by
  have hperm : List.Perm (buildFieldTable cls) (fieldCandidates cls) :=
    List.perm_insertionSort _ _
  rw [(hperm.map Prod.fst).nodup_iff]
  exact nodup_map_fst_filterMap (fun n p => fieldCandidate_fst)
    ((List.perm_insertionSort _ _).nodup_iff.mpr ((allAttrNames _).nodup_dedup))

theorem sorted_buildFieldTable (cls : PyClass) :
    List.Sorted tblLe (buildFieldTable cls) :=
  List.sorted_insertionSort tblLe _

theorem sorted_max_getLast : ∀ {l : List (String × Nat)}, List.Sorted tblLe l →
    ∀ {x : String × Nat}, x ∈ l → (∀ y ∈ l, y ≠ x → y.2 < x.2) →
    l.getLast? = some x := by
  intro l
  induction l with
  | nil => intro _ x hx; cases hx
  | cons a t ih =>
    intro hs x hx hmax
    cases t with
    | nil =>
      rw [List.mem_singleton] at hx
      subst hx; rfl
    | cons b t' =>
      rw [List.getLast?_cons_cons]
      by_cases hxt : x ∈ b :: t'
      · exact ih hs.of_cons hxt (fun y hy hne => hmax y (List.mem_cons_of_mem _ hy) hne)
      · exfalso
        have hxa : x = a := by
          rcases List.mem_cons.mp hx with h | h
          · exact h
          · exact absurd h hxt
        have hba : b ≠ x := fun hb => hxt (hb ▸ List.mem_cons_self b t')
        have hblt : b.2 < x.2 := hmax b (List.mem_cons_of_mem _ (List.mem_cons_self b t')) hba
        have hab : tblLe a b := List.rel_of_sorted_cons hs b (List.mem_cons_self b t')
        rw [← hxa] at hab
        rcases hab with h | ⟨h, _⟩ <;> omega

/-- C1: the field table built at first instantiation contains exactly
the public field-marked attributes visible on the type or its
ancestors, where attribute lookup takes the most-derived declaration;
names are unique; the table is sorted ascending by
`(creation sequence, name)` with ties broken by name; and a member
whose sequence number exceeds every other member's stands at the end of
the table (so redeclaring a field under a fresh, larger counter moves
it to the end). -/
theorem claim_C1_field_table (cls : PyClass) :
    (∀ n c, (n, c) ∈ buildFieldTable cls ↔
        (startsUnderscore n = false ∧ getattrCls cls n = some (.field c)))
    ∧ ((buildFieldTable cls).map Prod.fst).Nodup
    ∧ List.Sorted tblLe (buildFieldTable cls)
    ∧ (∀ n c, (n, c) ∈ buildFieldTable cls →
        (∀ p ∈ buildFieldTable cls, p ≠ (n, c) → p.2 < c) →
        (buildFieldTable cls).getLast? = some (n, c)) :=
  ⟨fun _ _ => mem_buildFieldTable, nodup_buildFieldTable cls, sorted_buildFieldTable cls,
   fun _ _ hx hmax => sorted_max_getLast (sorted_buildFieldTable cls) hx hmax⟩

theorem claim_C1_field_table_witness :
    (("a", 3) ∈
        buildFieldTable ⟨[[("a", PyAttr.field 3)], [("a", PyAttr.field 1), ("b", PyAttr.field 2)]]⟩
      ↔ (startsUnderscore "a" = false ∧
          getattrCls ⟨[[("a", PyAttr.field 3)], [("a", PyAttr.field 1), ("b", PyAttr.field 2)]]⟩ "a" =
            some (.field 3)))
    ∧ (buildFieldTable
        ⟨[[("a", PyAttr.field 3)], [("a", PyAttr.field 1), ("b", PyAttr.field 2)]]⟩).getLast? =
      some ("a", 3) :=
  ⟨(claim_C1_field_table _).1 "a" 3,
   (claim_C1_field_table _).2.2.2 "a" 3 (by decide) (by decide)⟩

/-! ## `Field.validate` -/

/-- C2: `validate` starts from a copy of the process errors, lets
`pre_validate` contribute (a hard stop skips the chain, a soft failure
does not), runs declared-then-extra validators, always consults
`post_validate` exactly at the stop flag, and returns `true` iff the
final error list is empty. -/
theorem claim_C2_field_validate (pe : List String) (pre : VOutcome)
    (vs ex : List VOutcome) (post : Bool → VOutcome) :
    (post (validateStopped pre vs ex) = .ok →
      fieldValidate pe pre vs ex post =
        .ok (validateBaseErrors pe pre vs ex, (validateBaseErrors pe pre vs ex).isEmpty))
    ∧ (∀ m, post (validateStopped pre vs ex) = .valueError m →
      fieldValidate pe pre vs ex post =
        .ok (validateBaseErrors pe pre vs ex ++ [m],
             (validateBaseErrors pe pre vs ex ++ [m]).isEmpty))
    ∧ (∀ m, post (validateStopped pre vs ex) = .stopValidation m →
      fieldValidate pe pre vs ex post = .error m)
    ∧ (∀ post', post (validateStopped pre vs ex) = post' (validateStopped pre vs ex) →
      fieldValidate pe pre vs ex post = fieldValidate pe pre vs ex post')
    ∧ (∀ E b, fieldValidate pe pre vs ex post = .ok (E, b) → (b = true ↔ E = [])) := by
  have hsteps : ∀ q : Bool → VOutcome, fieldValidate pe pre vs ex q =
      match q (validateStopped pre vs ex) with
      | .ok => .ok (validateBaseErrors pe pre vs ex, (validateBaseErrors pe pre vs ex).isEmpty)
      | .valueError m => .ok (validateBaseErrors pe pre vs ex ++ [m],
          (validateBaseErrors pe pre vs ex ++ [m]).isEmpty)
      | .stopValidation m => .error m := by
    intro q
    unfold fieldValidate
    cases pre <;>
      simp [runValidationChain_eq, validateStopped, validateBaseErrors, preMessages, preStops]
  refine ⟨?_, ?_, ?_, ?_, ?_⟩
  · intro h; rw [hsteps post, h]
  · intro m h; rw [hsteps post, h]
  · intro m h; rw [hsteps post, h]
  · intro post' h; rw [hsteps post, hsteps post', h]
  · intro E b hok
    rw [hsteps post] at hok
    rcases hq : post (validateStopped pre vs ex) with _ | m | m <;> rw [hq] at hok <;>
      simp only [Except.ok.injEq, Prod.mk.injEq, reduceCtorEq] at hok
    · rcases hok with ⟨hE, hb⟩
      subst hE; subst hb
      simp [List.isEmpty_iff]
    · rcases hok with ⟨hE, hb⟩
      subst hE; subst hb
      simp [List.isEmpty_iff]

theorem claim_C2_field_validate_witness :
    fieldValidate ["p"] (.valueError "q") [.ok] [.stopValidation Option.none]
      (fun b => if b then .valueError "post-stop" else .ok) = .ok (["p", "q", "post-stop"], false) := by
  have h := (claim_C2_field_validate ["p"] (.valueError "q") [.ok] [.stopValidation Option.none]
      (fun b => if b then .valueError "post-stop" else .ok)).2.1 "post-stop" (by decide)
  exact h.trans rfl

/-! ## Field-table cache invalidation (C4)

The claim says assigning a field-marked value to *any* attribute resets
the cache, and that the next construction of the type *or a subtype*
rebuilds it.  Neither is what `JsonMeta.__setattr__` does: a name
starting with an underscore, or the name `Meta` (whose branch only
resets `_json_meta`), leaves `_unbound_fields` untouched; and each class
object holds its own `_unbound_fields`, so a base-class assignment does
not reset a subtype's already-built cache. -/

/-- C4 counterexample: a built cache (`some []`) survives assigning a
field-marked value under the name `Meta` and under an underscore name;
and after a base-class field assignment, constructing the derived class
does not rebuild its stale cache. -/
theorem claim_C4_counterexample :
    (metaSetattr ⟨[], some [], some ()⟩ "Meta" (.field 5)).unboundFields = some []
    ∧ (metaSetattr ⟨[], some [], some ()⟩ "_x" (.field 5)).unboundFields = some []
    ∧ (hierCallDerived
          (hierSetattrBase ⟨⟨[], Option.none, Option.none⟩, ⟨[], some [], Option.none⟩⟩
            "x" (.field 5))).derived.unboundFields = some []
    ∧ buildFieldTable
        (derivedPyClass
          (hierSetattrBase ⟨⟨[], Option.none, Option.none⟩, ⟨[], some [], Option.none⟩⟩
            "x" (.field 5))) = [("x", 5)] := by
  decide

/-- C4 (amended): assigning a field-marked value (including the very
same field object again) to an attribute whose name neither starts
with an underscore nor equals `Meta` resets the type's cache to
unbuilt; assigning a non-field value never touches the cache; deleting
any attribute whose name does not start with an underscore (in
particular every field-declared attribute visible in the table) resets
the cache; and the next `__call__` on a type with an unbuilt cache
rebuilds it from the current declarations, while a built cache is
reused. -/
theorem claim_C4_cache_invalidation (s : MetaState) (n : String) (v : PyAttr) :
    (v.isField = true → startsUnderscore n = false → n ≠ "Meta" →
        (metaSetattr s n v).unboundFields = none)
    ∧ (v.isField = false → (metaSetattr s n v).unboundFields = s.unboundFields)
    ∧ (startsUnderscore n = false → (metaDelattr s n).unboundFields = none)
    ∧ (∀ cls, s.unboundFields = none →
        metaCall s cls = { s with unboundFields := some (buildFieldTable cls) })
    ∧ (∀ cls tbl, s.unboundFields = some tbl → metaCall s cls = s) := by
  refine ⟨?_, ?_, ?_, ?_, ?_⟩
  · intro hf hu hm
    rw [metaSetattr, if_neg hm, if_pos (by rw [hu, hf]; rfl)]
  · intro hf
    rw [metaSetattr]
    by_cases hm : n = "Meta"
    · rw [if_pos hm]
    · rw [if_neg hm, if_neg (by rw [hf]; simp)]
  · intro hu
    rw [metaDelattr, if_pos (by rw [hu]; rfl)]
  · intro cls h
    rw [metaCall, h]
  · intro cls tbl h
    rw [metaCall, h]

theorem claim_C4_cache_invalidation_witness :
    (metaSetattr ⟨[("a", .field 1)], some [("a", 1)], Option.none⟩ "a" (.field 1)).unboundFields =
      none
    ∧ (metaDelattr ⟨[("a", .field 1)], some [("a", 1)], Option.none⟩ "a").unboundFields = none
    ∧ metaCall ⟨[("a", .field 1)], Option.none, Option.none⟩ ⟨[[("a", .field 1)]]⟩ =
        ⟨[("a", .field 1)], some [("a", 1)], Option.none⟩ :=
  ⟨(claim_C4_cache_invalidation _ "a" _).1 (by decide) (by decide) (by decide),
   (claim_C4_cache_invalidation _ "a" (.field 1)).2.2.1 (by decide),
   ((claim_C4_cache_invalidation ⟨[("a", .field 1)], Option.none, Option.none⟩ "a"
        (.field 1)).2.2.2.1 ⟨[[("a", .field 1)]]⟩ rfl).trans (by decide)⟩

/-! ## `Field.process` with external input present but the name absent (C5) -/

/-- C5: with external input present and no entry under the field's
name, `raw_data` becomes the empty sequence and the adopt-external
step runs on it exactly when the current data is falsy — a truthy
current value makes the result independent of the adopt step and keeps
the data unchanged. -/
theorem claim_C5_absent_entry (name : String) (m : JsonData) (dflt : PyVal)
    (adopt : Adopter) (habs : lookupVal m name = Option.none) :
    (dflt.truthy = true →
        fieldProcess name (some m) dflt adopt [] = .ok ⟨dflt, some (.list []), []⟩)
    ∧ (dflt.truthy = false →
        fieldProcess name (some m) dflt adopt [] =
          (match adopt (.list []) dflt with
           | .ok d1 => .ok ⟨d1, some (.list []), []⟩
           | .valueError _ msg => .error (.valueErr msg)
           | .fault => .error .otherExc)) := by
  constructor
  · intro ht
    simp [fieldProcess, habs, ht, runFilters]
  · intro hf
    cases hadopt : adopt (.list []) dflt with
    | ok d1 => simp [fieldProcess, habs, hf, hadopt, runFilters]
    | valueError d1 msg => simp [fieldProcess, habs, hf, hadopt, runFilters]
    | fault => simp [fieldProcess, habs, hf, hadopt, runFilters]

theorem claim_C5_absent_entry_witness :
    fieldProcess "b" (some [("x", .int 1)]) (.bool false) stringAdopt [] =
      .ok ⟨.str "", some (.list []), []⟩
    ∧ fieldProcess "b" (some [("x", .int 1)]) (.str "keep") stringAdopt [] =
      .ok ⟨.str "keep", some (.list []), []⟩ :=
  ⟨((claim_C5_absent_entry "b" [("x", .int 1)] (.bool false) stringAdopt rfl).2 rfl).trans rfl,
   (claim_C5_absent_entry "b" [("x", .int 1)] (.str "keep") stringAdopt rfl).1 rfl⟩

/-! ## `StringField` never records a coercion error (C10) -/

/-- C10: the string field's adopt-external step is total — a string
raw value becomes the data, any other raw value silently becomes the
empty string — so `process` of a string field without filters always
succeeds with an empty process-error list, for every input mapping and
resolved default. -/
theorem claim_C10_string_no_coercion_error :
    (∀ v cur, stringAdopt v cur = .ok (if v.isStr then v else .str ""))
    ∧ (∀ name jsondata dflt, ∃ st,
        fieldProcess name jsondata dflt stringAdopt [] = .ok st ∧ st.processErrors = []) := by
  have hok : ∀ v cur, stringAdopt v cur = .ok (if v.isStr then v else .str "") := by
    intro v cur; cases v <;> rfl
  refine ⟨hok, ?_⟩
  intro name jd dflt
  cases jd with
  | none => exact ⟨⟨dflt, Option.none, []⟩, rfl, rfl⟩
  | some m =>
    cases hl : lookupVal m name with
    | some v =>
      refine ⟨⟨if v.isStr then v else .str "", some v, []⟩, ?_, rfl⟩
      simp [fieldProcess, hl, hok, runFilters]
    | none =>
      cases ht : dflt.truthy with
      | true =>
        refine ⟨⟨dflt, some (.list []), []⟩, ?_, rfl⟩
        simp [fieldProcess, hl, ht, runFilters]
      | false =>
        refine ⟨⟨.str "", some (.list []), []⟩, ?_, rfl⟩
        simp [fieldProcess, hl, ht, hok, runFilters, PyVal.isStr]

/-! ## `DateField` round trip (C9)

The claim quantifies over every raw value that does not parse; the code
guards `process_jsondata` with `if value:`, so the empty string — which
`strptime` would reject — is silently ignored and produces no process
error.  The claim is therefore amended to truthy (non-empty) raw
values. -/

/-- C9 counterexample: the empty string does not parse under
`%Y-%m-%d`, yet processing it records no process error (the claim
demands exactly one). -/
theorem claim_C9_counterexample :
    parseDateYmd "" = Option.none
    ∧ fieldProcess "d" (some [("d", .str "")]) .none dateAdopt [] =
        .ok ⟨.none, some (.str ""), []⟩ :=
  ⟨rfl, rfl⟩

/-- C9 (amended): raw `"2008-05-07"` parses to the date 2008-05-07 and
renders back to the same string under the same format; a non-empty
unparsable raw value records exactly one process error and leaves the
data null (the empty string is ignored without error). -/
theorem claim_C9_date_roundtrip :
    (fieldProcess "d" (some [("d", .str "2008-05-07")]) .none dateAdopt [] =
        .ok ⟨.date 2008 5 7, some (.str "2008-05-07"), []⟩)
    ∧ formatDateYmd 2008 5 7 = "2008-05-07"
    ∧ dateTimeFieldCall (some (.str "2008-05-07")) (some (2008, 5, 7)) = .str "2008-05-07"
    ∧ dateTimeFieldCall Option.none (some (2008, 5, 7)) = .str "2008-05-07"
    ∧ (∀ s : String, parseDateYmd s = Option.none → s ≠ "" →
        fieldProcess "d" (some [("d", .str s)]) .none dateAdopt [] =
          .ok ⟨.none, some (.str s), ["Not a valid date value"]⟩) := by
  refine ⟨rfl, rfl, rfl, rfl, ?_⟩
  intro s hp hs
  have htr : (PyVal.str s).truthy = true := by
    simp [PyVal.truthy, hs]
  simp [fieldProcess, lookupVal, dateAdopt, htr, hp, runFilters]

theorem claim_C9_date_roundtrip_witness :
    fieldProcess "d" (some [("d", .str "2008-13-01")]) .none dateAdopt [] =
      .ok ⟨.none, some (.str "2008-13-01"), ["Not a valid date value"]⟩ :=
  claim_C9_date_roundtrip.2.2.2.2 "2008-13-01" rfl (by decide)

/-! ## `ListField` cardinality (C6)

The `assert` in `_add_entry` is checked per element, so processing four
external entries under `max_entries = 3` binds the first three entries
and only then faults; the claim's "before any entry is bound" does not
hold. -/

/-- C6 counterexample: with `min_entries = 1`, `max_entries = 3`,
processing four external entries faults with the partial state already
holding the first three bound entries — not zero. -/
theorem claim_C6_counterexample :
    listFieldProcess "a" 1 (some 3) ⟨[], -1, []⟩
        (some [("a", .list [.int 1, .int 2, .int 3, .int 4])]) Option.none [] =
      .error (.assertionError,
        ⟨[⟨0, some (.int 1)⟩, ⟨1, some (.int 2)⟩, ⟨2, some (.int 3)⟩], 2, []⟩) := rfl

/-- C6 (amended): with `min_entries = 1`, `max_entries = 3`, processing
with no external input and zero native entries yields exactly one blank
entry; processing four external entries raises a configuration fault
(an `AssertionError`, not a validation error) when the fourth entry
would exceed the cap, after the first three entries have been bound. -/
theorem claim_C6_list_bounds :
    (listFieldProcess "a" 1 (some 3) ⟨[], -1, []⟩ Option.none Option.none [] =
        .ok ⟨[⟨0, Option.none⟩], 0, []⟩)
    ∧ (listFieldProcess "a" 1 (some 3) ⟨[], -1, []⟩
          (some [("a", .list [.int 1, .int 2, .int 3, .int 4])]) Option.none [] =
        .error (.assertionError,
          ⟨[⟨0, some (.int 1)⟩, ⟨1, some (.int 2)⟩, ⟨2, some (.int 3)⟩], 2, []⟩)) :=
  ⟨rfl, rfl⟩

/-! ## `ListField` entry ids (C7) -/

theorem addEntry_inv {max : Option Nat} {s : ListState} {d : Option PyVal}
    {p : ListState × LEntry} (hinv : ListInv s) (h : addEntry max s d = .ok p) :
    ListInv p.1 ∧ p.2.id = (s.entries.length : Int) ∧
      p.1.lastIndex = s.lastIndex + 1 ∧ p.1.entries = s.entries ++ [p.2] := by
  obtain ⟨h1, h2⟩ := hinv
  rw [addEntry] at h
  by_cases hm : maxOk max s.entries.length = true
  · rw [if_pos hm] at h
    injection h with h'
    subst h'
    have hl : s.lastIndex + 1 = (s.entries.length : Int) := by omega
    refine ⟨⟨?_, ?_⟩, by simpa using hl, rfl, rfl⟩
    · simp [List.map_append, h1, hl, List.range_succ]
    · simp [hl]
  · rw [if_neg hm] at h
    cases h

theorem addEntriesFromList_inv {max : Option Nat} :
    ∀ {l : List PyVal} {s s' : ListState}, ListInv s →
      addEntriesFromList max s l = .ok s' → ListInv s' := by
  intro l
  induction l with
  | nil =>
    intro s s' h h'
    injection h' with h''
    rwa [← h'']
  | cons d rest ih =>
    intro s s' h h'
    rw [addEntriesFromList] at h'
    cases hadd : addEntry max s (some d) with
    | ok p =>
      obtain ⟨s1, e⟩ := p
      rw [hadd] at h'
      exact ih (addEntry_inv h hadd).1 h'
    | error f =>
      rw [hadd] at h'
      cases h'

theorem padEntries_inv {max : Option Nat} :
    ∀ {k : Nat} {s s' : ListState}, ListInv s →
      padEntries max s k = .ok s' → ListInv s' := by
  intro k
  induction k with
  | zero =>
    intro s s' h h'
    injection h' with h''
    rwa [← h'']
  | succ k ih =>
    intro s s' h h'
    rw [padEntries] at h'
    cases hadd : addEntry max s Option.none with
    | ok p =>
      obtain ⟨s1, e⟩ := p
      rw [hadd] at h'
      exact ih (addEntry_inv h hadd).1 h'
    | error f =>
      rw [hadd] at h'
      cases h'

theorem listAfterInput_inv {name : String} {max : Option Nat} {s0 s1 : ListState}
    {jd : Option JsonData} {data : List PyVal} (hinv : ListInv s0)
    (h : listAfterInput name max s0 jd data = .ok s1) : ListInv s1 := by
  cases jd with
  | none => exact addEntriesFromList_inv hinv h
  | some m =>
    rw [listAfterInput] at h
    by_cases hm : m.isEmpty = true
    · rw [if_pos hm] at h
      exact addEntriesFromList_inv hinv h
    · rw [if_neg hm] at h
      rcases hv : lookupVal m name with _ | v
      · rw [hv] at h
        injection h with h'
        rw [← h']
        exact hinv
      · rw [hv] at h
        cases v with
        | list xs => exact addEntriesFromList_inv hinv h
        | none => injection h with h'; rw [← h']; exact hinv
        | bool b => injection h with h'; rw [← h']; exact hinv
        | int n => injection h with h'; rw [← h']; exact hinv
        | str s => injection h with h'; rw [← h']; exact hinv
        | date y mo dy => injection h with h'; rw [← h']; exact hinv

theorem listFieldProcess_inv {name : String} {minE : Nat} {max : Option Nat}
    {jd : Option JsonData} {dg : Option (List PyVal)} {dflt : List PyVal} {s' : ListState}
    (h : listFieldProcess name minE max ⟨[], -1, []⟩ jd dg dflt = .ok s') : ListInv s' := by
  rw [listFieldProcess] at h
  have hs0 : ListInv (⟨[], -1, []⟩ : ListState) := ⟨rfl, by decide⟩
  cases hin : listAfterInput name max ⟨[], -1, []⟩ jd (listResolveData dg dflt) with
  | ok s1 =>
    rw [hin] at h
    exact padEntries_inv (listAfterInput_inv hs0 hin) h
  | error e =>
    rw [hin] at h
    cases h

/-- C7: a freshly processed list field has `entries[i].id = i` for
every position, with `last_index` equal to the last id (starting at
`-1` on the empty list); `append_entry` increments and `pop_entry`
decrements the counter; and pop-then-append issues an id one past the
last remaining entry's, strictly above every remaining id, restoring
`0, …, n-1`. -/
theorem claim_C7_entry_ids :
    (∀ name minE max jd dg dflt s',
        listFieldProcess name minE max ⟨[], -1, []⟩ jd dg dflt = .ok s' →
        s'.entries.map LEntry.id = (List.range s'.entries.length).map Int.ofNat ∧
        s'.lastIndex = (s'.entries.length : Int) - 1)
    ∧ (∀ max s d p, appendEntry max s d = .ok p → p.1.lastIndex = s.lastIndex + 1)
    ∧ (∀ s p, popEntry s = .ok p → p.1.lastIndex = s.lastIndex - 1)
    ∧ (∀ max d s p q, ListInv s → s.entries ≠ [] →
        popEntry s = .ok p → appendEntry max p.1 d = .ok q →
        q.2.id = (s.entries.length : Int) - 1 ∧
        q.1.entries.map LEntry.id = (List.range s.entries.length).map Int.ofNat ∧
        (∀ e ∈ p.1.entries, e.id < q.2.id)) := by
  refine ⟨fun name minE max jd dg dflt s' h => listFieldProcess_inv h, ?_, ?_, ?_⟩
  · intro max s d p h
    rw [appendEntry, addEntry] at h
    by_cases hm : maxOk max s.entries.length = true
    · rw [if_pos hm] at h
      injection h with h'
      rw [← h']
    · rw [if_neg hm] at h
      cases h
  · intro s p h
    rw [popEntry] at h
    cases hgl : s.entries.getLast? with
    | some e =>
      rw [hgl] at h
      injection h with h'
      rw [← h']
    | none =>
      rw [hgl] at h
      cases h
  · intro max d s p q hinv hne hpop happ
    obtain ⟨h1, h2⟩ := hinv
    obtain ⟨k, hk⟩ : ∃ k, s.entries.length = k + 1 :=
      ⟨s.entries.length - 1, (Nat.succ_pred_eq_of_pos (List.length_pos.mpr hne)).symm⟩
    rw [popEntry] at hpop
    cases hgl : s.entries.getLast? with
    | none => rw [hgl] at hpop; cases hpop
    | some e =>
      rw [hgl] at hpop
      injection hpop with hp
      rw [appendEntry, addEntry] at happ
      by_cases hm : maxOk max p.1.entries.length = true
      · rw [if_pos hm] at happ
        injection happ with hq
        have hpe : p.1.entries = s.entries.dropLast := by rw [← hp]
        have hpl : p.1.lastIndex = s.lastIndex - 1 := by rw [← hp]
        have hid : q.2.id = (s.entries.length : Int) - 1 := by
          rw [← hq, hpl, h2]
          push_cast
          ring
        have hdrop : p.1.entries.map LEntry.id = (List.range k).map Int.ofNat := by
          rw [hpe, List.map_dropLast, h1, hk]
          simp [List.range_succ]
        refine ⟨hid, ?_, ?_⟩
        · have hqe : q.1.entries = p.1.entries ++ [q.2] := by rw [← hq]
          have hidk : q.2.id = Int.ofNat k := by
            rw [hid, hk]
            push_cast [Int.ofNat_eq_natCast]
            omega
          rw [hqe, List.map_append, hdrop, hk, List.range_succ, List.map_append]
          simp only [List.map_cons, List.map_nil]
          rw [hidk]
        · intro x hx
          have hxid : x.id ∈ (List.range k).map Int.ofNat := by
            rw [← hdrop]
            exact List.mem_map_of_mem LEntry.id hx
          rw [List.mem_map] at hxid
          obtain ⟨j, hj, hje⟩ := hxid
          rw [List.mem_range] at hj
          rw [← hje, hid, hk]
          push_cast [Int.ofNat_eq_natCast]
          omega
      · rw [if_neg hm] at happ
        cases happ

theorem claim_C7_entry_ids_witness :
    (listFieldProcess "a" 0 Option.none ⟨[], -1, []⟩ Option.none
          (some [.int 5, .int 6]) [] =
        .ok ⟨[⟨0, some (.int 5)⟩, ⟨1, some (.int 6)⟩], 1, []⟩)
    ∧ ((⟨[⟨0, some (.int 5)⟩, ⟨1, some (.int 6)⟩], 1, []⟩ : ListState).entries.map LEntry.id =
        (List.range 2).map Int.ofNat ∧
        (⟨[⟨0, some (.int 5)⟩, ⟨1, some (.int 6)⟩], 1, []⟩ : ListState).lastIndex = (2 : Int) - 1)
    ∧ (∀ e ∈ (⟨[⟨0, some (.int 5)⟩], 0, []⟩ : ListState).entries,
        e.id < (LEntry.mk 1 Option.none).id) := by
  refine ⟨rfl, ?_, ?_⟩
  · exact claim_C7_entry_ids.1 "a" 0 Option.none Option.none (some [.int 5, .int 6]) [] _ rfl
  · have h := claim_C7_entry_ids.2.2.2 Option.none Option.none
      ⟨[⟨0, some (.int 5)⟩, ⟨1, some (.int 6)⟩], 1, []⟩
      (⟨[⟨0, some (.int 5)⟩], 0, []⟩, ⟨1, some (.int 6)⟩)
      ((⟨[⟨0, some (.int 5)⟩, ⟨1, Option.none⟩], 1, []⟩ : ListState), LEntry.mk 1 Option.none)
      ⟨rfl, by decide⟩ (by simp) rfl rfl
    exact h.2.2

/-! ## `ObjectField` configuration errors and delegation (C8) -/

/-- C8: constructing an object field with non-empty filters or
non-empty validators raises a `TypeError`; construction with neither
succeeds; `validate` with non-empty extra validators raises a
`TypeError`, and with none returns exactly the nested container's own
`validate()` result; the field's `errors` view is the nested
container's error mapping itself. -/
theorem claim_C8_object_field (fs : List (PyVal → Except String PyVal))
    (vs extra : List VOutcome) (nested : NestedJson) :
    (fs ≠ [] → ∃ msg, objectFieldInit fs vs nested = .error msg)
    ∧ (vs ≠ [] → ∃ msg, objectFieldInit fs vs nested = .error msg)
    ∧ objectFieldInit [] [] nested = .ok nested
    ∧ (extra ≠ [] → ∃ msg, objectFieldValidate nested extra = .error msg)
    ∧ objectFieldValidate nested [] = .ok nested.validateResult
    ∧ objectFieldErrors nested = nested.errors := by
  refine ⟨?_, ?_, rfl, ?_, rfl, rfl⟩
  · intro h
    have heq : objectFieldInit fs vs nested =
        .error "ObjectField cannot take filters, as the encapsulated data is not mutable." := by
      rw [objectFieldInit, if_pos (by simpa using h)]
    exact ⟨_, heq⟩
  · intro h
    by_cases hf : fs.isEmpty = true
    · have heq : objectFieldInit fs vs nested =
          .error "ObjectField does not accept any validators. Instead, define them on the enclosed json." := by
        rw [objectFieldInit, if_neg (by simp [hf]), if_pos (by simpa using h)]
      exact ⟨_, heq⟩
    · have heq : objectFieldInit fs vs nested =
          .error "ObjectField cannot take filters, as the encapsulated data is not mutable." := by
        rw [objectFieldInit, if_pos (by simpa using hf)]
      exact ⟨_, heq⟩
  · intro h
    have heq : objectFieldValidate nested extra =
        .error "ObjectField does not accept in-line validators, as it gets errors from the enclosed json." := by
      rw [objectFieldValidate, if_pos (by simpa using h)]
    exact ⟨_, heq⟩

theorem claim_C8_object_field_witness :
    (∃ msg, objectFieldInit [fun v => Except.ok v] [] ⟨true, []⟩ = .error msg)
    ∧ (∃ msg, objectFieldInit [] [VOutcome.ok] ⟨true, []⟩ = .error msg)
    ∧ (∃ msg, objectFieldValidate ⟨false, [("inner", ["bad"])]⟩ [VOutcome.ok] = .error msg) :=
  ⟨(claim_C8_object_field [fun v => Except.ok v] [] [] ⟨true, []⟩).1 (by simp),
   (claim_C8_object_field [] [VOutcome.ok] [] ⟨true, []⟩).2.1 (by simp),
   (claim_C8_object_field [] [] [VOutcome.ok] ⟨false, [("inner", ["bad"])]⟩).2.2.2.1 (by simp)⟩

end Jsonlint
